import Mathlib

/-!
# osgrep — verification of the indexing/search core

Shallow embedding of the osgrep repository's core logic, translated from the
TypeScript sources:

* `src/lib/local-store.ts` — `LocalStore.search` (RRF fusion, rerank blending,
  heuristic boosts, fallback), `LocalStore.indexFile`, `LocalStore.ensureTable`,
  `LocalStore.createVectorIndex`, `LocalStore.baseSchemaRow`;
* `src/lib/worker.ts` — `EmbeddingWorker.embed`;
* the process worker pool (`WorkerPool`, unnamed source file `part_002`);
* `src/commands/serve.ts` — the `POST /search` body-size check and path
  validation;
* `src/config.ts` — `CONFIG.VECTOR_DIMENSIONS`, `WORKER_TIMEOUT_MS`.

Floating-point numbers are modelled by `ℚ` (all the constants involved are
exact decimals), JavaScript strings by `String` restricted to the ASCII
behaviour of `toLowerCase`/`trim`/regexes, and JavaScript `Map`s by insertion
ordered association lists, matching the iteration order the code relies on.
-/

namespace Osgrep

/-! ## JavaScript string helpers

Kernel-reducible re-implementations of the string operations the source uses:
`String.prototype.toLowerCase` (ASCII), `trim`, `includes`, and
`split(regex)` on a class of separator characters.  -/

/-- `s.toLowerCase()` on ASCII data: lower-case every character. -/
def lowerStr (s : String) : String := String.mk (s.data.map Char.toLower)

/-- `s.trim()`: drop whitespace from both ends. -/
def trimStr (s : String) : String :=
  String.mk (((s.data.dropWhile Char.isWhitespace).reverse.dropWhile Char.isWhitespace).reverse)

/-- Does the second list start with the first one? -/
def startsWithList : List Char → List Char → Bool
  | [], _ => true
  | _ :: _, [] => false
  | a :: as, b :: bs => if a = b then startsWithList as bs else false

/-- Does the list contain `pat` as a contiguous run (at any position)? -/
def containsSub (pat : List Char) : List Char → Bool
  | [] => pat.isEmpty
  | c :: rest => startsWithList pat (c :: rest) || containsSub pat rest

/-- `s.includes(pat)`. -/
def strContains (s pat : String) : Bool := containsSub pat.data s.data

/-- `s.split(<separator class>)`, keeping empty pieces (they are filtered out
by the length guard downstream, so collapsing runs of separators as the
`+`-quantified regexes do yields the same surviving tokens). -/
def splitSepsAux (sep : Char → Bool) : List Char → List Char → List (List Char)
  | [], acc => [acc.reverse]
  | c :: rest, acc =>
    if sep c then acc.reverse :: splitSepsAux sep rest []
    else splitSepsAux sep rest (c :: acc)

def splitSeps (sep : Char → Bool) (s : String) : List String :=
  (splitSepsAux sep s.data []).map (fun cs => String.mk cs)

/-! ## Searcher — `LocalStore.search`, src/lib/local-store.ts lines 401-585

A search-result row, with the `VectorRecord` fields the search path reads.
`context_prev`/`context_next` are `string | undefined` in the source, hence
`Option String` here. -/

structure SearchRec where
  path : String
  start_line : Nat
  content : String
  is_anchor : Bool
  context_prev : Option String := none
  context_next : Option String := none
  end_line : Nat := 0
deriving DecidableEq, Repr

/-- The fusion key `` `${r.path}:${r.start_line}` `` (line 460).  Since a
decimal literal contains no `:`, the template string is injective on the pair
`(path, start_line)`, so the pair itself is used as the key. -/
abbrev RrfKey := String × Nat

def recKey (r : SearchRec) : RrfKey := (r.path, r.start_line)

/-- JavaScript `Map.get`. -/
def mapGet {β : Type} : List (RrfKey × β) → RrfKey → Option β
  | [], _ => none
  | p :: rest, k => if p.1 = k then some p.2 else mapGet rest k

/-- JavaScript `Map.set`: update in place (keeping the insertion position) when
the key is present, append otherwise. -/
def mapSet {β : Type} : List (RrfKey × β) → RrfKey → β → List (RrfKey × β)
  | [], k, v => [(k, v)]
  | p :: rest, k, v => if p.1 = k then (k, v) :: rest else p :: mapSet rest k v

/-- The two maps built during RRF fusion (lines 455-456). -/
structure RrfState where
  rrfScores : List (RrfKey × ℚ)
  contentMap : List (RrfKey × SearchRec)
deriving DecidableEq, Repr

def RRF_K : Nat := 20

/-- Body of `fuse`'s `results.forEach((r, i) => ...)` (lines 458-466), at
`rank = i + 1`: record the first occurrence of the key in `contentMap` and add
`1 / (k + rank)` to its fused score. -/
def fuseStep (st : RrfState) (rank : Nat) (r : SearchRec) : RrfState :=
  let key := recKey r
  let cm := if (mapGet st.contentMap key).isSome then st.contentMap
            else mapSet st.contentMap key r
  let score : ℚ := 1 / ((RRF_K : ℚ) + (rank : ℚ))
  { rrfScores := mapSet st.rrfScores key ((mapGet st.rrfScores key).getD 0 + score),
    contentMap := cm }

/-- `results.forEach((r, i) => ...)` starting at index `i`. -/
def fuseFrom (i : Nat) (st : RrfState) : List SearchRec → RrfState
  | [] => st
  | r :: rest => fuseFrom (i + 1) (fuseStep st (i + 1) r) rest

/-- `fuse(results)` (lines 458-466). -/
def fuse (st : RrfState) (results : List SearchRec) : RrfState := fuseFrom 0 st results

/-- `fuse(vectorResults); fuse(ftsResults)` on the initially empty maps
(lines 468-469). -/
def fuseBoth (vectorResults ftsResults : List SearchRec) : RrfState :=
  fuse (fuse ⟨[], []⟩ vectorResults) ftsResults

/-- Stable insertion of `x` into a list sorted by descending `score`:
`x` goes in front of the first strictly smaller element, behind equals. -/
def insertByDesc {α : Type} (score : α → ℚ) (x : α) : List α → List α
  | [] => [x]
  | y :: ys => if score x ≥ score y then x :: y :: ys else y :: insertByDesc score x ys

/-- `Array.prototype.sort((a, b) => score(b) - score(a))`: ES2019 sort is
stable, so this is a stable descending sort by `score`. -/
def sortByScoreDesc {α : Type} (score : α → ℚ) : List α → List α
  | [] => []
  | x :: xs => insertByDesc score x (sortByScoreDesc score xs)

def vectorLimit : Nat := 200
def ftsLimit : Nat := 200
def RERANK_CAP : Nat := 50

/-- Lines 471-475: keys in insertion order, stably sorted by descending fused
score, mapped back through `contentMap` and truncated to
`vectorLimit + ftsLimit`. -/
def candidatesOf (st : RrfState) : List SearchRec :=
  ((sortByScoreDesc (fun k => (mapGet st.rrfScores k).getD 0) (st.rrfScores.map (·.1))).filterMap
    (fun k => mapGet st.contentMap k)).take (vectorLimit + ftsLimit)

/-- Lines 484-485: `rrfValues.length > 0 ? Math.max(...rrfValues) : 0`. -/
def maxRrf (st : RrfState) : ℚ :=
  match st.rrfScores.map (·.2) with
  | [] => 0
  | v :: rest => rest.foldl max v

/-- Lines 486-487: `maxRrf > 0 ? (rrfScores.get(key) || 0) / maxRrf : 0`. -/
def normalizeRrf (st : RrfState) (key : RrfKey) : ℚ :=
  if maxRrf st > 0 then ((mapGet st.rrfScores key).getD 0) / maxRrf st else 0

/-- Line 489: `query.toLowerCase().trim()`. -/
def lowerQueryOf (query : String) : String := trimStr (lowerStr query)

/-- The separator class of `/[\s/\\_.-]+/` (line 491). -/
def querySepChar (c : Char) : Bool :=
  c.isWhitespace || c = '/' || c = '\\' || c = '_' || c = '.' || c = '-'

/-- Lines 490-493: split the lowercased query, trim the pieces, and keep the
tokens of length `> 2`. -/
def queryPartsOf (query : String) : List String :=
  (((splitSeps querySepChar (lowerQueryOf query)).map trimStr).filter
    (fun t => t.length > 2))

/-- The character class of the source's code-likeness regex (line 495):
uppercase ASCII letter, underscore, backquote, parenthesis, or slash;
`Char.ofNat 96` is the backquote character. -/
def isCodeChar (c : Char) : Bool :=
  c.isUpper || c = '_' || c = Char.ofNat 96 || c = '(' || c = ')' || c = '/'

/-- Lines 494-495: the query is code-like when the regex matches or some token
contains an underscore. -/
def isCodeQueryOf (query : String) : Bool :=
  query.data.any isCodeChar || (queryPartsOf query).any (fun p => strContains p "_")

/-- The separator class of `/[^a-z0-9_]+/` (line 536), applied to the already
lowercased content. -/
def contentSepChar (c : Char) : Bool := !(c.isLower || c.isDigit || c = '_')

/-- Lines 534-539: the content's token set (membership is all that is used, so
the `Set` is kept as the token list). -/
def contentTokensOf (contentLower : String) : List String :=
  ((splitSeps contentSepChar contentLower).map trimStr).filter (fun t => t.length > 2)

/-- Lines 540-544: how many query tokens occur in the content's token set. -/
def overlapOf (query : String) (contentLower : String) : Nat :=
  ((queryPartsOf query).filter (fun tok => (contentTokensOf contentLower).contains tok)).length

/-- Lines 507-550: the blended score of one reranked candidate — weighted
rerank/RRF mix (weights chosen by `isCodeQuery`) plus the four additive
boosts, accumulated exactly as the source's `blendedScore` variable is. -/
def blendedScore (query : String) (rerankScore rrfScore : ℚ) (r : SearchRec) : ℚ :=
  let rerankWeight : ℚ := if isCodeQueryOf query then 0.55 else 0.6
  let rrfWeight : ℚ := 1 - rerankWeight
  let s0 := rerankWeight * rerankScore + rrfWeight * rrfScore
  let lowerQuery := lowerQueryOf query
  let content := lowerStr r.content
  let pathLower := lowerStr r.path
  let s1 := if lowerQuery.length > 2 && strContains content lowerQuery then s0 + 0.25 else s0
  let s2 := if r.is_anchor then s1 + 0.12 else s1
  let s3 := if (queryPartsOf query).any (fun part => strContains pathLower part)
            then s2 + 0.05 else s2
  let overlap := overlapOf query content
  if (queryPartsOf query).length > 0 && (contentTokensOf content).length > 0 && overlap > 0
  then s3 + min 0.08 ((overlap : ℚ) * 0.02) else s3

/-- A scored candidate (lines 497-501). -/
structure Scored where
  record : SearchRec
  score : ℚ
  rrfScore : ℚ
  rerankScore : ℚ
deriving DecidableEq, Repr

/-- An element of the response's `data` array (lines 560-582). -/
structure OutChunk where
  text : String
  score : ℚ
  path : String
  is_anchor : Bool
  start_line : Nat
  num_lines : Nat
deriving DecidableEq, Repr

/-- Lines 560-582: project a scored candidate to an output chunk.  `num_lines`
is `Math.max(1, endLine - startLine + 1)`; with truncated `Nat` subtraction the
value is the same. -/
def toOutChunk (s : Scored) : OutChunk :=
  { text := s.record.context_prev.getD "" ++ s.record.content ++ s.record.context_next.getD ""
    score := s.score
    path := s.record.path
    is_anchor := s.record.is_anchor
    start_line := s.record.start_line
    num_lines := max 1 (s.record.end_line - s.record.start_line + 1) }

/-- `LocalStore.search` from the fused candidate lists onward (lines 453-584),
parametrised by the two retrieval results and by the reranker's outcome:
`some scores` when `workerManager.rerank` resolves, `none` when it throws (the
`catch` at line 552 keeps the pre-computed pure-RRF `finalResults`). -/
def search (query : String) (top_k : Option Nat)
    (vectorResults ftsResults : List SearchRec)
    (rerankOutcome : Option (List ℚ)) : List OutChunk :=
  let finalLimit := top_k.getD 10
  let st := fuseBoth vectorResults ftsResults
  let candidates := candidatesOf st
  if candidates.isEmpty then []
  else
    let rerankCandidates := candidates.take RERANK_CAP
    let fallbackResults := rerankCandidates.map (fun r =>
      let rrfScore := normalizeRrf st (recKey r)
      Scored.mk r rrfScore rrfScore 0)
    let finalResults :=
      match rerankOutcome with
      | some scores =>
        rerankCandidates.mapIdx (fun i r =>
          let rrfScore := normalizeRrf st (recKey r)
          let rerankScore := (scores.get? i).getD 0
          Scored.mk r (blendedScore query rerankScore rrfScore r) rrfScore rerankScore)
      | none => fallbackResults
    ((sortByScoreDesc (·.score) finalResults).take finalLimit).map toOutChunk

/-! ### Spec-side companions for the Searcher

Definitions written from the specification's wording, to be compared with the
source translation above. -/

/-- Modelled from the spec: the rerank weight `w_r` — `0.55` for code-like
queries, `0.60` otherwise. -/
def specRerankWeight (query : String) : ℚ := if isCodeQueryOf query then 0.55 else 0.6

/-- Modelled from the spec: the four additive heuristic boosts of §4.7 step 5 —
exact substring `+0.25` (query length ≥ 3, both sides lowercased), anchor
`+0.12`, path-token `+0.05`, and the token-overlap bonus
`min(0.08, overlap × 0.02)` (zero when the overlap is zero). -/
def specBoosts (query : String) (r : SearchRec) : ℚ :=
  (if 3 ≤ (lowerQueryOf query).length ∧ strContains (lowerStr r.content) (lowerQueryOf query)
    then 0.25 else 0)
  + (if r.is_anchor then 0.12 else 0)
  + (if (queryPartsOf query).any (fun part => strContains (lowerStr r.path) part)
    then 0.05 else 0)
  + min 0.08 ((overlapOf query (lowerStr r.content) : ℚ) * 0.02)

/-- Modelled from the spec: the blended score
`w_r · rerank + (1 − w_r) · rrf_norm` plus the additive boosts. -/
def specBlendedScore (query : String) (rerankScore rrfNorm : ℚ) (r : SearchRec) : ℚ :=
  specRerankWeight query * rerankScore + (1 - specRerankWeight query) * rrfNorm
    + specBoosts query r

/-- Modelled from the claim (C1): the asserted rerank-failure ordering — the
rerank candidates ordered by their normalized RRF score *with the heuristic
boosts applied*, truncated to the limit. -/
def specFallbackWithBoosts (query : String) (top_k : Option Nat)
    (vectorResults ftsResults : List SearchRec) : List OutChunk :=
  let st := fuseBoth vectorResults ftsResults
  let rerankCandidates := (candidatesOf st).take RERANK_CAP
  let scored := rerankCandidates.map (fun r =>
    let rrfNorm := normalizeRrf st (recKey r)
    Scored.mk r (rrfNorm + specBoosts query r) rrfNorm 0)
  ((sortByScoreDesc (·.score) scored).take (top_k.getD 10)).map toOutChunk

/-- Modelled from the spec (amended C1): the pure-RRF fallback ordering —
the rerank candidates ordered by their normalized RRF score alone, no boosts,
truncated to the limit; empty when there are no candidates. -/
def specFallbackPure (_query : String) (top_k : Option Nat)
    (vectorResults ftsResults : List SearchRec) : List OutChunk :=
  let st := fuseBoth vectorResults ftsResults
  if (candidatesOf st).isEmpty then []
  else
    let scored := ((candidatesOf st).take RERANK_CAP).map (fun r =>
      let rrfNorm := normalizeRrf st (recKey r)
      Scored.mk r rrfNorm rrfNorm 0)
    ((sortByScoreDesc (·.score) scored).take (top_k.getD 10)).map toOutChunk

/-- Modelled from the spec: the RRF contribution of one ranked list to a key —
`Σ 1/(k+rank)` over the rows with that key, ranks counted from `i + 1`. -/
def rrfContribFrom (i : Nat) (key : RrfKey) : List SearchRec → ℚ
  | [] => 0
  | r :: rest =>
    (if recKey r = key then 1 / ((RRF_K : ℚ) + ((i : ℚ) + 1)) else 0)
      + rrfContribFrom (i + 1) key rest

def rrfContrib (results : List SearchRec) (key : RrfKey) : ℚ := rrfContribFrom 0 key results

/-- Fused score of a key (`rrfScores.get(key) || 0`). -/
def scoreAt (st : RrfState) (key : RrfKey) : ℚ := (mapGet st.rrfScores key).getD 0

/-- Is a key present in the fused score map? -/
def hasKey (st : RrfState) (key : RrfKey) : Prop := (mapGet st.rrfScores key).isSome

/-- The record a key is mapped to (first occurrence wins). -/
def contentAt (st : RrfState) (key : RrfKey) : Option SearchRec := mapGet st.contentMap key

/-! ## Embedding worker — `EmbeddingWorker.embed`, src/lib/worker.ts lines 22-30

The transformers pipeline runs the dense model with `pooling: "cls",
normalize: true`; its pooled, normalized output vector is the input here.  The
worker then returns `Array.from(output.data).slice(0, 128)` ("Matryoshka
slicing: take first 128 dimensions"). -/

namespace EmbeddingWorker

def embed (modelOutput : List ℚ) : List ℚ := modelOutput.take 128

end EmbeddingWorker

/-- `CONFIG.VECTOR_DIMENSIONS` (src/config.ts line 8). -/
def CONFIG_VECTOR_DIMENSIONS : Nat := 384

/-- The squared L2 norm of a vector (used to state unit-normalization without
square roots). -/
def normSq (v : List ℚ) : ℚ := (v.map (fun x => x * x)).sum

/-- A unit-norm 384-dimensional vector whose mass lies beyond index 127. -/
def unitVec384 : List ℚ := List.replicate 128 0 ++ [1] ++ List.replicate 255 0

/-! ## Worker pool — `WorkerPool`, unnamed source file `part_002`

State-machine embedding of the pool.  The event handlers registered by the
source are exactly `child.on("message")` and `child.on("exit")` plus the
public `enqueue`/`destroy`; no timer is registered for an enqueued task (the
only `setTimeout` in the file is the bounded wait inside `destroy`), so the
passage of time (`tick`) leaves a live pool's state unchanged. -/

namespace WorkerPool

/-- `ProcessWorker`'s mutable fields (`busy`, `pendingTaskId`). -/
structure PoolWorker where
  busy : Bool := false
  pendingTaskId : Option Nat := none
deriving DecidableEq, Repr

/-- A queued task: its id and, once dispatched, the index of its worker
(`task.worker`). -/
structure PendingTask where
  id : Nat
  assigned : Option Nat := none
deriving DecidableEq, Repr

/-- The pool's mutable state, plus observation logs for settled promises and
killed child processes. -/
structure PoolState where
  workers : List PoolWorker
  queue : List PendingTask
  nextId : Nat := 1
  destroyed : Bool := false
  resolvedTasks : List Nat := []
  rejectedTasks : List Nat := []
  killedWorkers : Nat := 0
deriving DecidableEq, Repr

/-- One round of `dispatch` (lines 108-128): first idle worker, first
unassigned task; mark the worker busy, record the assignment, send (the send
to a live child succeeds), and dispatch again.  The recursion assigns one
unassigned task per round, so `queue.length` rounds of fuel suffice. -/
def dispatchFuel : Nat → PoolState → PoolState
  | 0, st => st
  | fuel + 1, st =>
    if st.destroyed then st
    else
      match st.workers.findIdx? (fun w => !w.busy), st.queue.find? (fun t => t.assigned.isNone) with
      | some w, some t =>
        let st' : PoolState :=
          { st with
            workers := st.workers.set w { busy := true, pendingTaskId := some t.id }
            queue := st.queue.map (fun t' =>
              if t'.id = t.id then { t' with assigned := some w } else t') }
        dispatchFuel fuel st'
      | _, _ => st

def dispatch (st : PoolState) : PoolState := dispatchFuel st.queue.length st

/-- `enqueue` (lines 96-106): reject immediately when destroyed, else push a
fresh task and dispatch.  The `Bool` is true when the returned promise was
rejected on the spot. -/
def enqueue (st : PoolState) : PoolState × Bool :=
  if st.destroyed then (st, true)
  else
    let id := st.nextId
    (dispatch { st with nextId := id + 1, queue := st.queue ++ [{ id := id }] }, false)

/-- The `message` handler (lines 61-73): settle the matching task, free the
worker, drop the task from the queue, dispatch. -/
def onMessage (st : PoolState) (w : Nat) (msgId : Nat) (isError : Bool) : PoolState :=
  match st.queue.find? (fun t => t.id = msgId) with
  | none => st
  | some _ =>
    dispatch
      { st with
        resolvedTasks := if isError then st.resolvedTasks else st.resolvedTasks ++ [msgId]
        rejectedTasks := if isError then st.rejectedTasks ++ [msgId] else st.rejectedTasks
        workers := st.workers.set w { busy := false, pendingTaskId := none }
        queue := st.queue.filter (fun t => t.id ≠ msgId) }

/-- The `exit` handler (lines 76-92): free the worker slot, reject every task
assigned to it, drop them from the queue, and spawn a replacement unless the
pool is being destroyed (the exited entry itself is not removed from
`this.workers`). -/
def onExit (st : PoolState) (w : Nat) : PoolState :=
  let st1 : PoolState :=
    { st with workers := st.workers.modify (fun pw => { pw with busy := false }) w }
  let failed := st1.queue.filter (fun t => t.assigned = some w)
  let st2 : PoolState :=
    { st1 with
      rejectedTasks := st1.rejectedTasks ++ failed.map (·.id)
      queue := st1.queue.filter (fun t => t.assigned ≠ some w) }
  if st2.destroyed then st2 else { st2 with workers := st2.workers ++ [{}] }

/-- `destroy` (lines 146-163): mark destroyed, kill every worker
(awaiting exits, bounded by `WORKER_TIMEOUT_MS`), then reject the whole
queue. -/
def destroy (st : PoolState) : PoolState :=
  if st.destroyed then st
  else
    { st with
      destroyed := true
      killedWorkers := st.killedWorkers + st.workers.length
      workers := []
      rejectedTasks := st.rejectedTasks ++ st.queue.map (·.id)
      queue := [] }

/-- The passage of `ms` milliseconds on a live pool.  `enqueue`, `dispatch`
and `spawnWorker` register no timers — the only `setTimeout` in the source is
the bounded wait inside `destroy` — so no transition fires. -/
def tick (_ms : Nat) (st : PoolState) : PoolState := st

/-- `WORKER_TIMEOUT_MS` (src/config.ts lines 13-16):
`OSGREP_WORKER_TIMEOUT_MS` when set, else the default `"60000"`. -/
def workerTimeoutMs (envValue : Option Nat) : Nat := envValue.getD 60000

end WorkerPool

/-! ## Server shell — `serve`, src/commands/serve.ts

### Request-body size check (lines 59-75)

The `data` handler accumulates chunk lengths and, once the running total
exceeds `1_000_000` bytes, answers `413 {"error":"payload_too_large"}` and
destroys the request; the `end` handler processes the body only when the
request was not aborted. -/

namespace Serve

structure BodyState where
  totalSize : Nat
  aborted : Bool
  response : Option (Nat × String)
deriving DecidableEq, Repr

/-- One `data` event with a chunk of `chunkLen` bytes. -/
def onData (st : BodyState) (chunkLen : Nat) : BodyState :=
  if st.aborted then st
  else
    let total := st.totalSize + chunkLen
    if total > 1000000 then
      { totalSize := total, aborted := true, response := some (413, "payload_too_large") }
    else { st with totalSize := total }

/-- Receiving a whole body, as the list of its chunk sizes. -/
def receiveBody (chunks : List Nat) : BodyState :=
  chunks.foldl onData { totalSize := 0, aborted := false, response := none }

/-- The `end` handler runs the search only when `aborted` is still false. -/
def bodyProcessed (chunks : List Nat) : Bool := !(receiveBody chunks).aborted

/-! ### Path validation (lines 86-101)

Absolute paths are modelled as their segment lists (an absolute normalized
path `/a/b` is `["a", "b"]`); `path.resolve` joins and then normalizes,
resolving `"."` and `".."` (a `".."` at the root stays at the root).  The
source's `resolvedPath.startsWith(rootPrefix)` with
`rootPrefix = projectRoot + sep` holds of normalized paths exactly when the
root's segments are a proper prefix of the resolved segments. -/

/-- Normalize a segment list: drop `"."` and empty segments, let `".."` pop. -/
def normalizeSegs (segs : List String) : List String :=
  segs.foldl
    (fun acc s =>
      if s = "." ∨ s = "" then acc
      else if s = ".." then acc.dropLast
      else acc ++ [s])
    []

/-- A request's `body.path`: either absolute or relative to `projectRoot`. -/
structure ReqPath where
  absolute : Bool
  segs : List String
deriving DecidableEq, Repr

/-- `path.resolve(projectRoot, body.path)`. -/
def resolvePath (root : List String) (p : ReqPath) : List String :=
  normalizeSegs (if p.absolute then p.segs else root ++ p.segs)

/-- Is `q` inside the tree rooted at `root` (the root itself included)? -/
def underRoot (root q : List String) : Prop := q.take root.length = root

instance (root q : List String) : Decidable (underRoot root q) :=
  inferInstanceAs (Decidable (q.take root.length = root))

/-- Lines 87-101: reject with `400 invalid_path` unless the resolved path is
the project root or starts with `projectRoot + sep`; otherwise pass
`path.relative(projectRoot, resolvedPath)` on as the repo-relative filter. -/
def handleSearchPath (root : List String) (p : ReqPath) : Except String (List String) :=
  let resolved := resolvePath root p
  if resolved ≠ root ∧ ¬(resolved.take root.length = root ∧ root.length < resolved.length)
  then .error "invalid_path"
  else .ok (resolved.drop root.length)

end Serve

/-! ## Vector store — `LocalStore`, src/lib/local-store.ts -/

namespace LocalStore

def VECTOR_DIMENSIONS : Nat := 384

/-- A stored row, restricted to the fields `ensureTable` inspects.  `none` in
a context column stands for "absent / not a string". -/
structure StoreRow where
  id : String
  context_prev : Option String := none
  context_next : Option String := none
  vector : List ℚ := []
deriving DecidableEq, Repr

/-- A table: whether its schema has the `context_prev`/`context_next` columns,
and its rows. -/
structure StoreTable where
  hasContextCols : Bool
  rows : List StoreRow
deriving DecidableEq, Repr

/-- `baseSchemaRow` (lines 92-106): the synthetic schema-seed row, id `"seed"`,
empty strings, and a `VECTOR_DIMENSIONS`-long zero vector. -/
def baseSchemaRow : StoreRow :=
  { id := "seed", context_prev := some "", context_next := some ""
    vector := List.replicate VECTOR_DIMENSIONS 0 }

/-- Migration of one row (lines 138-144): the spread `{context_prev: …,
context_next: …, ...row}` lets the row's own string values win and fills the
missing columns with `""`. -/
def migrateRow (r : StoreRow) : StoreRow :=
  { r with
    context_prev := some (r.context_prev.getD "")
    context_next := some (r.context_next.getD "") }

/-- `ensureTable` (lines 108-165) on one store id.  `existing` is the current
table (if any); `openErr` signals `db.openTable` throwing even though the
table exists (a transient error: the subsequent `createTable` then throws
"already exists" and the handler reopens and returns the existing table,
lines 149-161).  Every path that creates the schema-seed row deletes it
(`delete('id = "seed"')`) before returning the handle. -/
def ensureTable (existing : Option StoreTable) (openErr : Bool) : StoreTable :=
  match existing, openErr with
  | some t, false =>
    if t.hasContextCols then t
    else
      let migrated := t.rows.map migrateRow
      let fresh : StoreTable := { hasContextCols := true, rows := [baseSchemaRow] }
      let added : StoreTable := { fresh with rows := fresh.rows ++ migrated }
      { added with rows := added.rows.filter (fun r => r.id ≠ "seed") }
  | some t, true => t
  | none, _ =>
    let created : StoreTable := { hasContextCols := true, rows := [baseSchemaRow] }
    { created with rows := created.rows.filter (fun r => r.id ≠ "seed") }

/-- A table has no schema-seed row. -/
def noSeed (t : StoreTable) : Bool := t.rows.all (fun r => r.id ≠ "seed")

/-! ### `createVectorIndex` (lines 370-399)

The LanceDB calls are oracles: `none` means the call succeeded, `some msg`
that it threw with message `msg`. -/

inductive IndexAction
  | createIvfFlat
  | createDefault
deriving DecidableEq, Repr

/-- `createVectorIndex`: below 256 rows do nothing; otherwise attempt the
IVF-flat index and, when that throws with a message not containing
"already exists", fall back to the default vector index (whose own
"already exists" failure is also swallowed; anything else is logged).
Returns the attempted index creations and the logged warnings. -/
def createVectorIndex (rowCount : Nat) (ivfOutcome defaultOutcome : Option String) :
    List IndexAction × List String :=
  if rowCount < 256 then ([], [])
  else
    match ivfOutcome with
    | none => ([.createIvfFlat], [])
    | some msg =>
      if strContains msg "already exists" then ([.createIvfFlat], [])
      else
        match defaultOutcome with
        | none => ([.createIvfFlat, .createDefault], [])
        | some msg2 =>
          if strContains msg2 "already exists" then ([.createIvfFlat, .createDefault], [])
          else ([.createIvfFlat, .createDefault], ["Failed to create vector index: " ++ msg2])

/-! ### `indexFile` (lines 198-346)

The chunker and `buildAnchorChunk`/`formatChunkText` live in collaborator
modules (`chunker.ts`, `chunk-utils.ts`), so the parsed chunks, the optional
anchor chunk and the formatting function are parameters.  The embedding
worker returns one vector per input text (`embedBatch`), so the per-batch
loop over `EMBED_BATCH_SIZE`-sized slices is embedded with `embed` applied
text-wise. -/

/-- A chunk as it leaves the chunker: `chunkIndex`/`isAnchor` may be unset
(`undefined`). -/
structure RawChunk where
  startLine : Nat
  endLine : Nat
  chunkIndex : Option Int := none
  isAnchor : Option Bool := none
deriving DecidableEq, Repr

/-- A chunk after the normalization at lines 272-288. -/
structure Chunk where
  startLine : Nat
  endLine : Nat
  chunkIndex : Int
  isAnchor : Bool
deriving DecidableEq, Repr

/-- Lines 272-288: fill `chunkIndex` (anchor present: `idx - 1`, else `idx`)
and `isAnchor` (`chunk.isAnchor === true || (anchorChunk ? idx === 0 : false)`). -/
def withContextFields (anchorPresent : Bool) (idx : Nat) (c : RawChunk) : Chunk :=
  { startLine := c.startLine
    endLine := c.endLine
    chunkIndex := c.chunkIndex.getD (if anchorPresent then (idx : Int) - 1 else (idx : Int))
    isAnchor := c.isAnchor = some true ∨ (anchorPresent ∧ idx = 0) }

/-- A row as pushed onto `pendingWrites` (lines 316-328); `id` (a UUID) is
omitted.  `context_prev`/`context_next` are
`typeof chunkTexts[i ∓ 1] === "string" ? … : undefined`. -/
structure IndexRow where
  path : String
  hash : String
  content : String
  context_prev : Option String
  context_next : Option String
  start_line : Nat
  end_line : Nat
  chunk_index : Int
  is_anchor : Bool
  vector : List ℚ
deriving DecidableEq, Repr

def EMBED_BATCH_SIZE : Nat := 12

/-- The row built for global chunk index `idx` (lines 309-328). -/
def mkRow (pathStr hashStr : String) (chunks : List Chunk) (chunkTexts : List String)
    (vec : List ℚ) (idx : Nat) : IndexRow :=
  let c := (chunks.get? idx).getD { startLine := 0, endLine := 0, chunkIndex := 0, isAnchor := false }
  { path := pathStr
    hash := hashStr
    content := (chunkTexts.get? idx).getD ""
    context_prev := if idx = 0 then none else chunkTexts.get? (idx - 1)
    context_next := chunkTexts.get? (idx + 1)
    start_line := c.startLine
    end_line := c.endLine
    chunk_index := c.chunkIndex
    is_anchor := c.isAnchor
    vector := vec }

/-- The batched embedding loop (lines 298-330): texts are embedded in slices
of `EMBED_BATCH_SIZE`, and the row for global index `i + j` is pushed for each
vector `j` of the batch.  `pendingWrites` accumulates across batches, i.e. the
batches' row lists are concatenated in order.  `fuel` bounds the number of
iterations of `for (i = 0; i < length; i += BATCH_SIZE)`; `chunkTexts.length`
iterations always suffice. -/
def indexBatchesAux (pathStr hashStr : String) (chunks : List Chunk)
    (chunkTexts : List String) (embed : String → List ℚ) : Nat → Nat → List IndexRow
  | 0, _ => []
  | fuel + 1, i =>
    if i < chunkTexts.length then
      let batchTexts := (chunkTexts.drop i).take EMBED_BATCH_SIZE
      let batchVectors := batchTexts.map embed
      (List.range batchVectors.length).map
        (fun j => mkRow pathStr hashStr chunks chunkTexts (batchVectors.getD j []) (i + j))
        ++ indexBatchesAux pathStr hashStr chunks chunkTexts embed fuel (i + EMBED_BATCH_SIZE)
    else []

def indexBatchesFrom (pathStr hashStr : String) (chunks : List Chunk)
    (chunkTexts : List String) (embed : String → List ℚ) (i : Nat) : List IndexRow :=
  indexBatchesAux pathStr hashStr chunks chunkTexts embed chunkTexts.length i

/-- The chunk list the rows are built from: the anchor chunk (when present)
in front of the parsed chunks (lines 263-269), normalized (lines 272-288). -/
def chunksOf (anchor : Option RawChunk) (parsed : List RawChunk) : List Chunk :=
  let baseChunks := match anchor with | some a => a :: parsed | none => parsed
  baseChunks.mapIdx (fun idx c => withContextFields anchor.isSome idx c)

/-- `indexFile` from the assembled chunks to the pending rows (lines 263-345):
empty input produces no rows (line 270); otherwise format every chunk
(`formatChunkText`, a collaborator, is the parameter `fmt`) and run the
batched embedding loop. -/
def indexFileRows (pathStr hashStr : String) (anchor : Option RawChunk)
    (parsed : List RawChunk) (fmt : Chunk → String) (embed : String → List ℚ) :
    List IndexRow :=
  let chunks := chunksOf anchor parsed
  if chunks.isEmpty then []
  else indexBatchesFrom pathStr hashStr chunks (chunks.map fmt) embed 0

end LocalStore

/-! ## Concrete instances used by counterexamples and witnesses -/

/-- A non-anchor row under path `"a"`. -/
def ceA : SearchRec := { path := "a", start_line := 1, content := "", is_anchor := false }

/-- An anchor row under path `"b"`. -/
def ceB : SearchRec := { path := "b", start_line := 1, content := "", is_anchor := true }

/-- A one-worker pool, freshly constructed. -/
def pool0 : WorkerPool.PoolState := { workers := [{}], queue := [] }

/-- The pool after one request has been enqueued (and dispatched). -/
def pool1 : WorkerPool.PoolState := (WorkerPool.enqueue pool0).1

/-- A two-chunk file: chunk formatting tags the chunks `"one"`/`"two"`. -/
def ceFmt (c : LocalStore.Chunk) : String := if c.startLine = 1 then "one" else "two"

def ceRows : List LocalStore.IndexRow :=
  LocalStore.indexFileRows "f.ts" "h0" none
    [{ startLine := 1, endLine := 1 }, { startLine := 2, endLine := 2 }] ceFmt (fun _ => [])

end Osgrep

namespace Osgrep

/-! ## Helper lemmas -/

theorem foldl_onData_of_aborted (chunks : List Nat) (st : Serve.BodyState)
    (h : st.aborted = true) : chunks.foldl Serve.onData st = st := by
  induction chunks with
  | nil => rfl
  | cons c rest ih => simp [List.foldl, Serve.onData, h, ih]

theorem foldl_onData_of_le (chunks : List Nat) (st : Serve.BodyState)
    (h : st.aborted = false) (hle : st.totalSize + chunks.sum ≤ 1000000) :
    chunks.foldl Serve.onData st
      = { totalSize := st.totalSize + chunks.sum, aborted := false, response := st.response } := by
  induction chunks generalizing st with
  | nil => simp [← h]
  | cons c rest ih =>
    rw [List.sum_cons] at hle
    have hc : ¬ st.totalSize + c > 1000000 := by omega
    simp only [List.foldl, Serve.onData, h, Bool.false_eq_true, if_false, if_neg hc]
    rw [ih _ rfl (show st.totalSize + c + rest.sum ≤ 1000000 by omega)]
    simp [List.sum_cons, Nat.add_assoc]

theorem foldl_onData_of_gt (chunks : List Nat) (st : Serve.BodyState)
    (h : st.aborted = false) (hinv : st.totalSize ≤ 1000000)
    (hgt : st.totalSize + chunks.sum > 1000000) :
    (chunks.foldl Serve.onData st).aborted = true ∧
      (chunks.foldl Serve.onData st).response = some (413, "payload_too_large") := by
  induction chunks generalizing st with
  | nil => simp at hgt; omega
  | cons c rest ih =>
    rw [List.sum_cons] at hgt
    by_cases hc : st.totalSize + c > 1000000
    · simp only [List.foldl, Serve.onData, h, Bool.false_eq_true, if_false, if_pos hc]
      rw [foldl_onData_of_aborted rest _ rfl]
      exact ⟨rfl, rfl⟩
    · simp only [List.foldl, Serve.onData, h, Bool.false_eq_true, if_false, if_neg hc]
      exact ih _ rfl (show st.totalSize + c ≤ 1000000 by omega)
        (show (({ totalSize := st.totalSize + c, aborted := false, response := st.response } :
          Serve.BodyState)).totalSize + rest.sum > 1000000 by show st.totalSize + c + rest.sum > 1000000; omega)

/-- C7: a POST /search body of exactly 1 MB is accepted and processed, and a
body one byte larger is rejected with `413 payload_too_large`. -/
theorem serve_payload_limit (chunks : List Nat) :
    (chunks.sum = 1000000 →
      Serve.bodyProcessed chunks = true ∧ (Serve.receiveBody chunks).response = none) ∧
    (chunks.sum = 1000000 + 1 →
      Serve.bodyProcessed chunks = false ∧
        (Serve.receiveBody chunks).response = some (413, "payload_too_large")) := by
  constructor
  · intro hsum
    have heq := foldl_onData_of_le chunks { totalSize := 0, aborted := false, response := none }
      rfl (by simpa using hsum.le)
    unfold Serve.bodyProcessed Serve.receiveBody
    rw [heq]
    exact ⟨rfl, rfl⟩
  · intro hsum
    have hab := foldl_onData_of_gt chunks { totalSize := 0, aborted := false, response := none }
      rfl (by simp) (by simp [hsum])
    unfold Serve.bodyProcessed Serve.receiveBody
    rw [hab.1, hab.2]
    simp

theorem serve_payload_limit_witness :
    Serve.bodyProcessed [1000000] = true ∧
    Serve.bodyProcessed [1000000, 1] = false ∧
    (Serve.receiveBody [1000000, 1]).response = some (413, "payload_too_large") :=
  ⟨((serve_payload_limit [1000000]).1 (by decide)).1,
   ((serve_payload_limit [1000000, 1]).2 (by decide)).1,
   ((serve_payload_limit [1000000, 1]).2 (by decide)).2⟩

/-- C8: `createVectorIndex` is a no-op below 256 rows; at 256 rows or more it
attempts the IVF-flat index first and falls back to the default vector index
exactly when the IVF attempt fails for a reason other than the index already
existing. -/
theorem create_vector_index_policy (rowCount : Nat) (ivf dflt : Option String) :
    (rowCount < 256 → LocalStore.createVectorIndex rowCount ivf dflt = ([], [])) ∧
    (256 ≤ rowCount →
      (LocalStore.createVectorIndex rowCount ivf dflt).1.head? = some .createIvfFlat ∧
      (∀ msg, ivf = some msg → strContains msg "already exists" = false →
        (LocalStore.createVectorIndex rowCount ivf dflt).1
          = [.createIvfFlat, .createDefault]) ∧
      (∀ msg, ivf = some msg → strContains msg "already exists" = true →
        (LocalStore.createVectorIndex rowCount ivf dflt).1 = [.createIvfFlat])) := by
  constructor
  · intro hlt
    simp [LocalStore.createVectorIndex, hlt]
  · intro hge
    have hnlt : ¬ rowCount < 256 := by omega
    refine ⟨?_, ?_, ?_⟩
    · cases ivf with
      | none => simp [LocalStore.createVectorIndex, hnlt]
      | some msg =>
        by_cases hmsg : strContains msg "already exists" = true
        · simp [LocalStore.createVectorIndex, hnlt, hmsg]
        · cases dflt with
          | none => simp [LocalStore.createVectorIndex, hnlt, hmsg]
          | some msg2 =>
            by_cases hmsg2 : strContains msg2 "already exists" = true <;>
              simp [LocalStore.createVectorIndex, hnlt, hmsg, hmsg2]
    · intro msg hivf hmsg
      subst hivf
      cases dflt with
      | none => simp [LocalStore.createVectorIndex, hnlt, hmsg]
      | some msg2 =>
        by_cases hmsg2 : strContains msg2 "already exists" = true <;>
          simp [LocalStore.createVectorIndex, hnlt, hmsg, hmsg2]
    · intro msg hivf hmsg
      subst hivf
      simp [LocalStore.createVectorIndex, hnlt, hmsg]

theorem create_vector_index_policy_witness :
    LocalStore.createVectorIndex 100 none none = ([], []) ∧
    (LocalStore.createVectorIndex 300 (some "ivf_flat not supported") none).1
      = [.createIvfFlat, .createDefault] :=
  ⟨(create_vector_index_policy 100 none none).1 (by decide),
   ((create_vector_index_policy 300 (some "ivf_flat not supported") none).2 (by decide)).2.1
     "ivf_flat not supported" rfl (by decide)⟩

/-- C6: a `POST /search` `path` field is rejected with `400 invalid_path`
exactly when the path resolved against `projectRoot` (after normalization)
lies outside the `projectRoot` tree, and a path resolving to `projectRoot`
itself is allowed and becomes the empty repo-relative filter. -/
theorem serve_path_validation (root : List String) (p : Serve.ReqPath) :
    (Serve.handleSearchPath root p = .error "invalid_path" ↔
      ¬ Serve.underRoot root (Serve.resolvePath root p)) ∧
    (Serve.resolvePath root p = root → Serve.handleSearchPath root p = .ok []) := by
  constructor
  · unfold Serve.handleSearchPath Serve.underRoot
    by_cases h1 : Serve.resolvePath root p = root
    · simp [h1]
    · by_cases h2 : (Serve.resolvePath root p).take root.length = root
      · have hle : root.length ≤ (Serve.resolvePath root p).length := by
          have := congrArg List.length h2
          simp [List.length_take] at this
          omega
        have hlt : root.length < (Serve.resolvePath root p).length := by
          rcases Nat.lt_or_ge root.length (Serve.resolvePath root p).length with h | h
          · exact h
          · exfalso
            have hfull : (Serve.resolvePath root p).take root.length = Serve.resolvePath root p :=
              List.take_of_length_le (by omega)
            exact h1 (hfull ▸ h2)
        simp [h1, h2, hlt]
      · simp [h1, h2]
  · intro h
    unfold Serve.handleSearchPath
    rw [h]
    simp

theorem serve_path_validation_witness :
    Serve.handleSearchPath ["home", "proj"] { absolute := false, segs := [] } = .ok [] ∧
    Serve.handleSearchPath ["home", "proj"] { absolute := false, segs := ["..", "sibling"] }
      = .error "invalid_path" :=
  ⟨(serve_path_validation ["home", "proj"] { absolute := false, segs := [] }).2 (by decide),
   (serve_path_validation ["home", "proj"] { absolute := false, segs := ["..", "sibling"] }).1.mpr
     (by decide)⟩

/-- C2 (code bug): the in-worker embedder does not return 384-dimensional
vectors — it slices the model's pooled, normalized output down to its first
128 components (`embedding.slice(0, 128)`, worker.ts line 29), while
`CONFIG.VECTOR_DIMENSIONS` and the store's schema-seed vector fix 384.  The
slice of a unit vector need not be unit either: `unitVec384` has squared norm
1 but its embedded image has squared norm 0. -/
theorem embed_slices_to_128_not_384 :
    (∀ v : List ℚ, (EmbeddingWorker.embed v).length = min 128 v.length) ∧
    (EmbeddingWorker.embed (List.replicate CONFIG_VECTOR_DIMENSIONS 0)).length = 128 ∧
    normSq unitVec384 = 1 ∧
    unitVec384.length = CONFIG_VECTOR_DIMENSIONS ∧
    normSq (EmbeddingWorker.embed unitVec384) = 0 ∧
    LocalStore.baseSchemaRow.vector.length = CONFIG_VECTOR_DIMENSIONS ∧
    128 ≠ CONFIG_VECTOR_DIMENSIONS := by
  refine ⟨fun v => List.length_take .., ?_, ?_, ?_, ?_, ?_, by decide⟩
  · rw [EmbeddingWorker.embed, CONFIG_VECTOR_DIMENSIONS, List.length_take,
      List.length_replicate]
    norm_num
  · rw [normSq, unitVec384]
    rw [List.map_append, List.map_append, List.sum_append, List.sum_append]
    rw [List.map_replicate, List.map_replicate, List.sum_replicate, List.sum_replicate]
    norm_num
  · rw [unitVec384, CONFIG_VECTOR_DIMENSIONS, List.length_append, List.length_append,
      List.length_replicate, List.length_replicate]
    rfl
  · have htake : EmbeddingWorker.embed unitVec384 = List.replicate 128 (0 : ℚ) := by
      rw [EmbeddingWorker.embed, unitVec384]
      rw [List.take_append_of_le_length
        (by rw [List.length_append, List.length_replicate]; norm_num)]
      rw [List.take_append_of_le_length (by rw [List.length_replicate])]
      rw [List.take_replicate]
      norm_num
    rw [htake, normSq, List.map_replicate, List.sum_replicate]
    norm_num
  · rw [LocalStore.baseSchemaRow]
    rw [CONFIG_VECTOR_DIMENSIONS, LocalStore.VECTOR_DIMENSIONS]
    rw [List.length_replicate]

/-- Helper: filtering on a decidable row predicate leaves only rows satisfying
it. -/
theorem all_filter_ne_seed (l : List LocalStore.StoreRow) :
    (l.filter (fun r => r.id ≠ "seed")).all (fun r => r.id ≠ "seed") = true := by
  rw [List.all_eq_true]
  intro r hr
  exact (List.mem_filter.mp hr).2

/-- C10: every table handle `ensureTable` returns is free of the synthetic
schema-seed row — each flow that creates the seed row deletes it before
returning, and flows that return a pre-existing table preserve its (seedless)
rows. -/
theorem ensure_table_no_seed (existing : Option LocalStore.StoreTable) (openErr : Bool)
    (hpre : ∀ t, existing = some t → LocalStore.noSeed t = true) :
    LocalStore.noSeed (LocalStore.ensureTable existing openErr) = true := by
  cases existing with
  | none =>
    cases openErr <;>
      exact all_filter_ne_seed _
  | some t =>
    cases openErr with
    | false =>
      unfold LocalStore.ensureTable
      by_cases hcols : t.hasContextCols = true
      · simpa [hcols] using hpre t rfl
      · simp only [Bool.not_eq_true] at hcols
        simp only [hcols, Bool.false_eq_true, if_false]
        exact all_filter_ne_seed _
    | true => exact hpre t rfl

theorem ensure_table_no_seed_witness :
    LocalStore.noSeed (LocalStore.ensureTable none false) = true :=
  ensure_table_no_seed none false (fun _t h => nomatch h)

/-- C3 (counterexample): an enqueued request has no hard timeout — after the
default timeout plus one millisecond elapses with no reply, the dispatched
task's promise is still pending (not rejected), no worker has been killed and
none has been respawned. -/
theorem worker_timeout_counterexample :
    WorkerPool.tick (WorkerPool.workerTimeoutMs none + 1) pool1 = pool1 ∧
    pool1.rejectedTasks = [] ∧
    pool1.resolvedTasks = [] ∧
    pool1.queue = [{ id := 1, assigned := some 0 }] ∧
    pool1.killedWorkers = 0 ∧
    pool1.workers.length = pool0.workers.length := by
  refine ⟨rfl, ?_, ?_, ?_, ?_, ?_⟩ <;> decide

/-- C3 (amended): `WORKER_TIMEOUT_MS` defaults to 60000 and follows
`OSGREP_WORKER_TIMEOUT_MS`, but it is never applied to enqueued requests — the
pool registers no per-request timer, so elapsed time changes nothing; tasks
fail only through error replies, worker exits, or pool destruction, and an
unexpected worker exit rejects exactly the tasks assigned to that worker and
spawns one replacement. -/
theorem worker_pool_no_request_timeout :
    WorkerPool.workerTimeoutMs none = 60000 ∧
    (∀ ms : Nat, WorkerPool.workerTimeoutMs (some ms) = ms) ∧
    (∀ (ms : Nat) (st : WorkerPool.PoolState), WorkerPool.tick ms st = st) ∧
    (∀ (st : WorkerPool.PoolState) (w : Nat), st.destroyed = false →
      (WorkerPool.onExit st w).workers.length = st.workers.length + 1 ∧
      (WorkerPool.onExit st w).rejectedTasks
        = st.rejectedTasks ++ (st.queue.filter (fun t => t.assigned = some w)).map (·.id)) := by
  refine ⟨rfl, fun ms => rfl, fun ms st => rfl, fun st w hdest => ?_⟩
  unfold WorkerPool.onExit
  simp [hdest, List.length_modify]

theorem worker_pool_no_request_timeout_witness :
    (WorkerPool.onExit pool1 0).workers.length = pool1.workers.length + 1 ∧
    WorkerPool.workerTimeoutMs none = 60000 :=
  ⟨(worker_pool_no_request_timeout.2.2.2 pool1 0 (by decide)).1,
   worker_pool_no_request_timeout.1⟩

/-- Helper: `Map.get` after `Map.set`. -/
theorem mapGet_mapSet {β : Type} (m : List (RrfKey × β)) (k k' : RrfKey) (v : β) :
    mapGet (mapSet m k v) k' = if k = k' then some v else mapGet m k' := by
  induction m with
  | nil => by_cases h : k = k' <;> simp [mapSet, mapGet, h]
  | cons p rest ih =>
    by_cases h : k = k'
    · subst h
      by_cases hp : p.1 = k <;> simp [mapSet, mapGet, hp, ih]
    · by_cases hp : p.1 = k
      · have hpk' : ¬ p.1 = k' := by rw [hp]; exact h
        simp [mapSet, mapGet, hp, h, hpk']
      · by_cases hpk' : p.1 = k'
        · simp [mapSet, mapGet, hp, h, Ne.symm h, hpk']
        · simp [mapSet, mapGet, hp, h, hpk', ih]

/-- Helper: the fused score after one `fuse` step. -/
theorem scoreAt_fuseStep (st : RrfState) (rank : Nat) (r : SearchRec) (key : RrfKey) :
    scoreAt (fuseStep st rank r) key
      = scoreAt st key + (if recKey r = key then 1 / ((RRF_K : ℚ) + (rank : ℚ)) else 0) := by
  unfold scoreAt fuseStep
  simp only []
  rw [mapGet_mapSet]
  by_cases h : recKey r = key
  · rw [if_pos h, if_pos h, h]
    simp
  · rw [if_neg h, if_neg h]
    simp

/-- Helper: the fused score after folding a whole result list. -/
theorem scoreAt_fuseFrom (rs : List SearchRec) (i : Nat) (st : RrfState) (key : RrfKey) :
    scoreAt (fuseFrom i st rs) key = scoreAt st key + rrfContribFrom i key rs := by
  induction rs generalizing i st with
  | nil => simp [fuseFrom, rrfContribFrom]
  | cons r rest ih =>
    rw [fuseFrom, rrfContribFrom, ih, scoreAt_fuseStep]
    push_cast
    ring

/-- Helper: key presence after one `fuse` step. -/
theorem hasKey_fuseStep (st : RrfState) (rank : Nat) (r : SearchRec) (key : RrfKey) :
    hasKey (fuseStep st rank r) key ↔ hasKey st key ∨ recKey r = key := by
  unfold hasKey fuseStep
  simp only []
  rw [mapGet_mapSet]
  by_cases h : recKey r = key <;> simp [h]

/-- Helper: key presence after folding a whole result list. -/
theorem hasKey_fuseFrom (rs : List SearchRec) (i : Nat) (st : RrfState) (key : RrfKey) :
    hasKey (fuseFrom i st rs) key ↔ hasKey st key ∨ ∃ r ∈ rs, recKey r = key := by
  induction rs generalizing i st with
  | nil => simp [fuseFrom]
  | cons r rest ih =>
    rw [fuseFrom, ih, hasKey_fuseStep]
    constructor
    · rintro ((h | h) | h)
      · exact Or.inl h
      · exact Or.inr ⟨r, List.mem_cons_self r rest, h⟩
      · rcases h with ⟨a, ha, hk⟩
        exact Or.inr ⟨a, List.mem_cons_of_mem r ha, hk⟩
    · rintro (h | ⟨a, ha, hk⟩)
      · exact Or.inl (Or.inl h)
      · rcases List.mem_cons.mp ha with rfl | ha
        · exact Or.inl (Or.inr hk)
        · exact Or.inr ⟨a, ha, hk⟩

/-- Helper: the recorded content after one `fuse` step (first occurrence
wins). -/
theorem contentAt_fuseStep (st : RrfState) (rank : Nat) (r : SearchRec) (key : RrfKey) :
    contentAt (fuseStep st rank r) key
      = match contentAt st key with
        | some a => some a
        | none => if recKey r = key then some r else none := by
  unfold contentAt fuseStep
  simp only []
  by_cases hpres : (mapGet st.contentMap (recKey r)).isSome = true
  · rw [if_pos hpres]
    cases h : mapGet st.contentMap key with
    | some a => simp
    | none =>
      by_cases hr : recKey r = key
      · rw [hr] at hpres
        rw [h] at hpres
        simp at hpres
      · simp [hr]
  · rw [if_neg hpres]
    rw [mapGet_mapSet]
    cases hnone : mapGet st.contentMap (recKey r) with
    | some a => rw [hnone] at hpres; simp at hpres
    | none =>
      by_cases hr : recKey r = key
      · rw [if_pos hr, ← hr, hnone]
        simp
      · rw [if_neg hr]
        cases h2 : mapGet st.contentMap key <;> simp [hr]

/-- Helper: `find?` over an append scans the left list first. -/
theorem find?_append_eq {α : Type} (p : α → Bool) (l₁ l₂ : List α) :
    (l₁ ++ l₂).find? p
      = match l₁.find? p with | some a => some a | none => l₂.find? p := by
  induction l₁ with
  | nil => simp
  | cons a rest ih =>
    by_cases h : p a = true <;> simp [List.find?, h, ih]

/-- Helper: the recorded content after folding a whole result list. -/
theorem contentAt_fuseFrom (rs : List SearchRec) (i : Nat) (st : RrfState) (key : RrfKey) :
    contentAt (fuseFrom i st rs) key
      = match contentAt st key with
        | some a => some a
        | none => rs.find? (fun r => recKey r = key) := by
  induction rs generalizing i st with
  | nil => cases h : contentAt st key <;> simp [fuseFrom, h]
  | cons r rest ih =>
    rw [fuseFrom, ih, contentAt_fuseStep]
    cases h : contentAt st key with
    | some a => simp
    | none =>
      by_cases hr : recKey r = key <;> simp [List.find?, hr]

/-- C4: RRF fusion scores every row `1/(20+rank)` (rank counted from 1), sums
the scores over the two candidate lists per `(path, start_line)` key, keeps
the first occurrence of a key as its record, and is commutative in the two
lists: swapping them preserves the key set and every key's fused score. -/
theorem rrf_fusion_commutative (v f : List SearchRec) (key : RrfKey) :
    scoreAt (fuseBoth v f) key = rrfContrib v key + rrfContrib f key ∧
    contentAt (fuseBoth v f) key = (v ++ f).find? (fun r => recKey r = key) ∧
    scoreAt (fuseBoth v f) key = scoreAt (fuseBoth f v) key ∧
    (hasKey (fuseBoth v f) key ↔ hasKey (fuseBoth f v) key) := by
  have hscore : ∀ a b : List SearchRec,
      scoreAt (fuseBoth a b) key = rrfContrib a key + rrfContrib b key := by
    intro a b
    unfold fuseBoth fuse rrfContrib
    rw [scoreAt_fuseFrom, scoreAt_fuseFrom]
    have hempty : scoreAt ⟨[], []⟩ key = 0 := rfl
    rw [hempty]
    ring
  refine ⟨hscore v f, ?_, by rw [hscore v f, hscore f v]; ring, ?_⟩
  · unfold fuseBoth fuse
    rw [contentAt_fuseFrom, contentAt_fuseFrom]
    have hempty : contentAt ⟨[], []⟩ key = none := rfl
    rw [hempty, find?_append_eq]
    cases hv : v.find? (fun r => decide (recKey r = key)) <;> simp [hv]
  · unfold fuseBoth fuse
    rw [hasKey_fuseFrom, hasKey_fuseFrom, hasKey_fuseFrom, hasKey_fuseFrom]
    have hempty : ¬ hasKey ⟨[], []⟩ key := by simp [hasKey, mapGet]
    simp only [hempty, false_or]
    exact or_comm

/-- Helper: the guarded token-overlap boost of the source equals adding the
spec's `min(0.08, overlap × 0.02)` term unconditionally. -/
theorem overlap_term (query content : String) (s : ℚ) :
    (if (queryPartsOf query).length > 0 && (contentTokensOf content).length > 0 &&
        overlapOf query content > 0
      then s + min 0.08 ((overlapOf query content : ℚ) * 0.02) else s)
      = s + min 0.08 ((overlapOf query content : ℚ) * 0.02) := by
  by_cases hov : overlapOf query content = 0
  · rw [hov]
    norm_num
  · have hovpos : overlapOf query content > 0 := Nat.pos_of_ne_zero hov
    have hq : (queryPartsOf query).length > 0 :=
      lt_of_lt_of_le hovpos (List.length_filter_le _ _)
    have hct : (contentTokensOf content).length > 0 := by
      rcases Nat.eq_zero_or_pos (contentTokensOf content).length with hz | hp
      · exfalso
        apply hov
        have hnil : contentTokensOf content = [] := List.length_eq_zero.mp hz
        unfold overlapOf
        rw [hnil]
        simp
      · exact hp
    simp [hq, hct, hovpos]

/-- C5: the final pre-sort score of a reranked candidate is
`w_r · rerank + (1 − w_r) · rrf_norm` — `w_r = 0.55` for code-like queries
(uppercase letter, underscore, backquote, parenthesis, slash, or an
underscored token), `0.60` otherwise — plus the additive boosts: `+0.25` for
an exact (lowercased) substring match of a query of length ≥ 3, `+0.12` for
anchor chunks, `+0.05` for a query token of length ≥ 3 occurring in the path,
and `min(0.08, overlap × 0.02)` for token overlap. -/
theorem blended_score_formula (query : String) (rerankScore rrfNorm : ℚ) (r : SearchRec) :
    blendedScore query rerankScore rrfNorm r = specBlendedScore query rerankScore rrfNorm r := by
  unfold blendedScore specBlendedScore specRerankWeight specBoosts
  simp only []
  rw [overlap_term]
  by_cases hcode : isCodeQueryOf query = true <;>
  by_cases hq3 : 3 ≤ (lowerQueryOf query).length <;>
  by_cases hs : strContains (lowerStr r.content) (lowerQueryOf query) = true <;>
  by_cases ha : r.is_anchor = true <;>
  by_cases hp : ((queryPartsOf query).any fun part => strContains (lowerStr r.path) part) = true <;>
  simp [hcode, hq3, hs, ha, hp,
    show ((lowerQueryOf query).length > 2) ↔ (3 ≤ (lowerQueryOf query).length) from by omega] <;>
  ring

/-- Helper: the context fields of the rows produced by the batched embedding
loop — one row per remaining text, `context_prev`/`context_next` read from the
neighbouring formatted texts (`undefined` off either end). -/
theorem indexBatchesAux_ctx (ps hs : String) (chunks : List LocalStore.Chunk)
    (texts : List String) (embed : String → List ℚ) (fuel : Nat) :
    ∀ i, texts.length ≤ i + fuel * LocalStore.EMBED_BATCH_SIZE →
    (LocalStore.indexBatchesAux ps hs chunks texts embed fuel i).map
        (fun row => (row.context_prev, row.context_next))
      = (List.range (texts.length - i)).map (fun j =>
          ((if i + j = 0 then none else texts.get? (i + j - 1)), texts.get? (i + j + 1))) := by
  unfold LocalStore.EMBED_BATCH_SIZE
  induction fuel with
  | zero =>
    intro i hfuel
    simp only [Nat.zero_mul, Nat.add_zero] at hfuel
    simp [LocalStore.indexBatchesAux, Nat.sub_eq_zero_of_le hfuel]
  | succ fuel ih =>
    intro i hfuel
    rw [LocalStore.indexBatchesAux]
    simp only [LocalStore.EMBED_BATCH_SIZE]
    by_cases h : i < texts.length
    · rw [if_pos h]
      rw [List.map_append, List.map_map]
      have hbl : (((texts.drop i).take 12).map embed).length = 12 ⊓ (texts.length - i) := by
        rw [List.length_map, List.length_take, List.length_drop]
      have hsplit : texts.length - i
          = 12 ⊓ (texts.length - i) + (texts.length - (i + 12)) := by omega
      rw [ih (i + 12) (by omega)]
      rw [hbl]
      conv_rhs => rw [hsplit, List.range_add, List.map_append]
      congr 1
      rw [List.map_map]
      apply List.map_congr_left
      intro j hj
      rw [List.mem_range] at hj
      have hbleq : 12 ⊓ (texts.length - i) = 12 := by omega
      simp only [Function.comp, hbleq]
      have harith : i + 12 + j = i + (12 + j) := by omega
      rw [harith]
    · rw [if_neg h]
      simp [Nat.sub_eq_zero_of_le (Nat.le_of_not_lt h)]

/-- C9 (amended): for every produced row, `context_prev` is the previous
chunk's formatted text — `undefined` (not the empty string) for the first
chunk — and `context_next` the next chunk's formatted text, `undefined` for
the last. -/
theorem index_file_context_neighbors (ps hs : String) (anchor : Option LocalStore.RawChunk)
    (parsed : List LocalStore.RawChunk) (fmt : LocalStore.Chunk → String)
    (embed : String → List ℚ) (idx : Nat)
    (h : idx < (LocalStore.indexFileRows ps hs anchor parsed fmt embed).length) :
    (((LocalStore.indexFileRows ps hs anchor parsed fmt embed).get ⟨idx, h⟩).context_prev
        = if idx = 0 then none
          else ((LocalStore.chunksOf anchor parsed).get? (idx - 1)).map fmt) ∧
    (((LocalStore.indexFileRows ps hs anchor parsed fmt embed).get ⟨idx, h⟩).context_next
        = ((LocalStore.chunksOf anchor parsed).get? (idx + 1)).map fmt) := by
  have hctx := indexBatchesAux_ctx ps hs (LocalStore.chunksOf anchor parsed)
    ((LocalStore.chunksOf anchor parsed).map fmt) embed
    ((LocalStore.chunksOf anchor parsed).map fmt).length 0
    (by unfold LocalStore.EMBED_BATCH_SIZE; omega)
  by_cases hemp : (LocalStore.chunksOf anchor parsed).isEmpty
  · exfalso
    rw [LocalStore.indexFileRows] at h
    simp [hemp] at h
  · have hrows : LocalStore.indexFileRows ps hs anchor parsed fmt embed
        = LocalStore.indexBatchesAux ps hs (LocalStore.chunksOf anchor parsed)
            ((LocalStore.chunksOf anchor parsed).map fmt) embed
            ((LocalStore.chunksOf anchor parsed).map fmt).length 0 := by
      rw [LocalStore.indexFileRows]
      simp only [hemp, Bool.false_eq_true, if_false]
      rw [LocalStore.indexBatchesFrom]
    have hgetrow : (LocalStore.indexBatchesAux ps hs (LocalStore.chunksOf anchor parsed)
          ((LocalStore.chunksOf anchor parsed).map fmt) embed
          ((LocalStore.chunksOf anchor parsed).map fmt).length 0).get? idx
        = some ((LocalStore.indexFileRows ps hs anchor parsed fmt embed).get ⟨idx, h⟩) := by
      conv_lhs => rw [← hrows]
      exact List.get?_eq_get h
    have hidxlen : idx < (LocalStore.chunksOf anchor parsed).length := by
      have hlen := congrArg List.length hctx
      conv at hlen => lhs; rw [List.length_map]
      conv at hlen => rhs; rw [List.length_map, List.length_range, List.length_map, Nat.sub_zero]
      have h' := h
      rw [hrows] at h'
      omega
    have hgetmap := congrArg (fun l => l.get? idx) hctx
    simp only [List.get?_map] at hgetmap
    rw [hgetrow] at hgetmap
    rw [List.get?_range (by simpa using hidxlen)] at hgetmap
    simp only [Option.map_some, Nat.zero_add, Nat.sub_zero] at hgetmap
    have hpair := Option.some.inj hgetmap
    constructor
    · have hl := congrArg Prod.fst hpair
      simpa using hl
    · have hr := congrArg Prod.snd hpair
      simpa using hr

theorem index_file_context_neighbors_witness :
    ((LocalStore.indexFileRows "f.ts" "h0" none
        [{ startLine := 1, endLine := 1 }, { startLine := 2, endLine := 2 }] ceFmt
        (fun _ => [])).get ⟨1, by decide⟩).context_prev = some "one" :=
  (index_file_context_neighbors "f.ts" "h0" none
      [{ startLine := 1, endLine := 1 }, { startLine := 2, endLine := 2 }] ceFmt
      (fun _ => []) 1 (by decide)).1.trans (by decide)

/-- C9 (counterexample): the first produced row's `context_prev` is
`undefined` (`none`), not the empty string the claim asserts. -/
theorem context_prev_first_chunk_counterexample :
    ceRows.map (fun r => r.context_prev) = [none, some "one"] ∧
    ceRows ≠ [] ∧
    ¬ (ceRows.map (fun r => r.context_prev)).get? 0 = some (some "") := by
  refine ⟨by decide, by decide, by decide⟩

/-- C1 (amended): when the reranker call throws, search still returns results,
ordered by the normalized RRF scores alone — the heuristic boosts are *not*
applied on the fallback path (they are computed only together with the rerank
scores inside the `try` block). -/
theorem rerank_fallback_pure_rrf (query : String) (top_k : Option Nat)
    (vectorResults ftsResults : List SearchRec) :
    search query top_k vectorResults ftsResults none
      = specFallbackPure query top_k vectorResults ftsResults := rfl

/-- C1 (counterexample): with the vector list `[ceA, ceB]` (`ceB` an anchor),
an empty FTS list and the query `"zz"`, the rerank-failure output is ordered
`a` before `b` (pure RRF), while the claimed "RRF + boosts" ordering puts the
anchor-boosted `b` first. -/
theorem rerank_fallback_counterexample :
    (search "zz" (some 10) [ceA, ceB] [] none).map (fun c => c.path) = ["a", "b"] ∧
    (specFallbackWithBoosts "zz" (some 10) [ceA, ceB] []).map (fun c => c.path) = ["b", "a"] ∧
    (["a", "b"] : List String) ≠ ["b", "a"] := by
  refine ⟨?_, ?_, by decide⟩
  · norm_num +decide [search, specFallbackPure, fuseBoth, fuse, fuseFrom, fuseStep, recKey,
      RRF_K, mapGet, mapSet, candidatesOf, sortByScoreDesc, insertByDesc, maxRrf, normalizeRrf,
      vectorLimit, ftsLimit, RERANK_CAP, toOutChunk, ceA, ceB, max_def]
  · norm_num +decide [specFallbackWithBoosts, specBoosts, fuseBoth, fuse, fuseFrom, fuseStep,
      recKey, RRF_K, mapGet, mapSet, candidatesOf, sortByScoreDesc, insertByDesc, maxRrf,
      normalizeRrf, vectorLimit, ftsLimit, RERANK_CAP, toOutChunk, ceA, ceB, max_def,
      lowerQueryOf, lowerStr, trimStr, queryPartsOf, splitSeps, splitSepsAux, querySepChar,
      strContains, containsSub, startsWithList, contentTokensOf, contentSepChar, overlapOf]

end Osgrep
